import Mathlib

/-!
# Verification of the MCP (Model Context Protocol) subsystem

Shallow embedding of the repository's MCP layer:

* `src/services/mcp/mcp-client.ts`  — `MCPClient` (one subprocess connection:
  framing, request/response correlation, timeouts, lifecycle);
* `src/services/mcp/mcp-manager.ts` — `MCPManager` (multi-server registry:
  best-effort initialisation, catalog aggregation, routing by qualified name);
* the unnamed `MCPToolWrapper` file  — schema translation to Zod and the
  result-normalising invocation wrapper.

JavaScript strings are modelled as Lean `String`s; `String.prototype.split`
and `Array.prototype.join` are re-implemented on `List Char` so that their
algebra is provable.  JSON values are modelled by the inductive `JsValue`.
Asynchrony is modelled by making each event handler / callback an explicit
state-transition function on the client state; wall-clock time is an explicit
`Nat` parameter (milliseconds).
-/

namespace MCP

/-! ## JavaScript string primitives -/

/-- `String.prototype.split(sep)` for a one-character separator, on the
character-list representation.  Mirrors JS semantics: the result is never
empty, `split` of `""` is `[""]`, and separators at the ends produce empty
segments. -/
def splitOnChar (sep : Char) : List Char → List (List Char)
  | [] => [[]]
  | c :: rest =>
    let r := splitOnChar sep rest
    if c = sep then
      [] :: r
    else
      match r with
      | [] => [[c]]
      | h :: t => (c :: h) :: t

/-- `Array.prototype.join(sep)` on character lists. -/
def joinSep (sep : Char) : List (List Char) → List Char
  | [] => []
  | [x] => x
  | x :: xs => x ++ sep :: joinSep sep xs

theorem splitOnChar_ne_nil (sep : Char) (s : List Char) : splitOnChar sep s ≠ [] := by
  induction s with
  | nil => simp [splitOnChar]
  | cons c rest ih =>
    simp only [splitOnChar]
    split
    · simp
    · match h : splitOnChar sep rest with
      | [] => exact absurd h ih
      | y :: ys => simp [h]

/-- Splitting then joining on the same separator is the identity. -/
theorem joinSep_splitOnChar (sep : Char) (s : List Char) :
    joinSep sep (splitOnChar sep s) = s := by
  induction s with
  | nil => simp [splitOnChar, joinSep]
  | cons c rest ih =>
    simp only [splitOnChar]
    rcases h : splitOnChar sep rest with _ | ⟨y, ys⟩
    · exact absurd h (splitOnChar_ne_nil sep rest)
    · rw [h] at ih
      by_cases hc : c = sep
      · simp only [if_pos hc, joinSep, List.nil_append]
        rw [hc, ih]
      · simp only [if_neg hc]
        cases ys with
        | nil => simpa [joinSep] using ih
        | cons z zs => simpa [joinSep] using ih

/-- A string without the separator splits into the single whole segment. -/
theorem splitOnChar_of_not_mem (sep : Char) (s : List Char) (h : sep ∉ s) :
    splitOnChar sep s = [s] := by
  induction s with
  | nil => simp [splitOnChar]
  | cons c rest ih =>
    simp only [List.mem_cons, not_or] at h
    have hrest := ih h.2
    simp only [splitOnChar, hrest]
    have : ¬ c = sep := fun hc => h.1 hc.symm
    simp [this]

/-- Splitting at the first occurrence of the separator: the first segment is
the prefix before it and the remaining segments are the split of the suffix. -/
theorem splitOnChar_append (sep : Char) (pre post : List Char) (h : sep ∉ pre) :
    splitOnChar sep (pre ++ sep :: post) = pre :: splitOnChar sep post := by
  induction pre with
  | nil => simp [splitOnChar]
  | cons c cs ih =>
    simp only [List.mem_cons, not_or] at h
    have hsplit := ih h.2
    have hc : ¬ c = sep := fun hc => h.1 hc.symm
    simp only [List.cons_append, splitOnChar, if_neg hc, List.append_eq, hsplit]

/-! ## JSON values (as manipulated by the JavaScript code) -/

/-- A JSON-ish JavaScript value.  Property access that misses is modelled by
`Option` (JS `undefined`) at use sites. -/
inductive JsValue where
  | null
  | bool (b : Bool)
  | num (n : Int)
  | str (s : String)
  | arr (elems : List JsValue)
  | obj (fields : List (String × JsValue))
deriving Repr, BEq

namespace JsValue

/-- JS truthiness. -/
def truthy : JsValue → Bool
  | .null => false
  | .bool b => b
  | .num n => n != 0
  | .str s => s != ""
  | .arr _ => true
  | .obj _ => true

/-- `typeof v === 'object'` (true for objects, arrays and `null`). -/
def typeofObject : JsValue → Bool
  | .null | .arr _ | .obj _ => true
  | _ => false

/-- Property access `v[k]` for non-`null` values; `none` is JS `undefined`.
JS property access on `null` throws a TypeError; the one place the source
can perform it — `item.text` on a `null` item inside `result.content` — is
modelled as an explicit thrown error in `formatContentItem`, never through
this function. -/
def getField (v : JsValue) (k : String) : Option JsValue :=
  match v with
  | .obj fields => (fields.find? (fun kv => kv.1 == k)).map (·.2)
  | _ => none

/-- Is the value a string? -/
def isStr : JsValue → Bool
  | .str _ => true
  | _ => false

/-- Truthiness of a possibly-`undefined` value. -/
def optTruthy : Option JsValue → Bool
  | none => false
  | some v => v.truthy

end JsValue

/-- `sep.join(strs)` on Lean strings (JS `Array.prototype.join`). -/
def jsJoin (sep : String) : List String → String
  | [] => ""
  | [x] => x
  | x :: xs => x ++ sep ++ jsJoin sep xs

mutual
/-- `String(v)` — JS string coercion (array elements joined by commas,
objects rendered as `[object Object]`). -/
def jsString : JsValue → String
  | .null => "null"
  | .bool b => if b then "true" else "false"
  | .num n => toString n
  | .str s => s
  | .arr es => jsStringElems es
  | .obj _ => "[object Object]"

def jsStringElems : List JsValue → String
  | [] => ""
  | [v] => jsString v
  | v :: vs => jsString v ++ "," ++ jsStringElems vs
end

mutual
/-- `JSON.stringify(v)` (indentation and string escaping abstracted away;
the claims only distinguish which value gets stringified, not whitespace). -/
def jsonStringify : JsValue → String
  | .null => "null"
  | .bool b => if b then "true" else "false"
  | .num n => toString n
  | .str s => "\"" ++ s ++ "\""
  | .arr es => "[" ++ jsonStringifyElems es ++ "]"
  | .obj fs => "\x7b" ++ jsonStringifyFields fs ++ "\x7d"

def jsonStringifyElems : List JsValue → String
  | [] => ""
  | [v] => jsonStringify v
  | v :: vs => jsonStringify v ++ "," ++ jsonStringifyElems vs

def jsonStringifyFields : List (String × JsValue) → String
  | [] => ""
  | [(k, v)] => "\"" ++ k ++ "\":" ++ jsonStringify v
  | (k, v) :: fs => "\"" ++ k ++ "\":" ++ jsonStringify v ++ "," ++ jsonStringifyFields fs
end

/-! ## Tool input schemas and their Zod translation

From the unnamed `MCPToolWrapper` file: `convertMCPSchemaToZod` and
`convertPropertyToZod`.  A JSON-Schema node is modelled by the fields the
code actually reads: `type`, `properties`, `required`, `items`,
`description` (each possibly absent). -/

/-- A (restricted) JSON-Schema node, with exactly the fields the wrapper
code inspects. -/
inductive JSchema where
  | mk (type : Option String) (properties : Option (List (String × JSchema)))
       (required : Option (List String)) (items : Option JSchema)
       (description : Option String)

namespace JSchema

def type : JSchema → Option String
  | .mk t _ _ _ _ => t

def properties : JSchema → Option (List (String × JSchema))
  | .mk _ p _ _ _ => p

def required : JSchema → Option (List String)
  | .mk _ _ r _ _ => r

def items : JSchema → Option JSchema
  | .mk _ _ _ i _ => i

def description : JSchema → Option String
  | .mk _ _ _ _ d => d

end JSchema

/-- The Zod schema expressions the wrapper can build. -/
inductive ZodType where
  | string
  | number
  | intNumber
  | boolean
  | array (item : ZodType)
  | object (shape : List (String × ZodType))
  | any
  | optional (t : ZodType)
  | withDescription (t : ZodType) (d : String)
deriving Repr, BEq

namespace ZodType

/-- Is the outermost layer `.optional(...)`? -/
def isOptional : ZodType → Bool
  | .optional _ => true
  | _ => false

/-- Strip `.optional` and `.describe` wrappers down to the underlying type. -/
def core : ZodType → ZodType
  | .optional t => t.core
  | .withDescription t _ => t.core
  | t => t

end ZodType

namespace MCPToolWrapper

/-- `zodType.describe(description)` applied when the property carries a
description (identical in every `switch` branch of the source). -/
def applyDescribe (z : ZodType) : Option String → ZodType
  | some d => .withDescription z d
  | none => z

/-- `MCPToolWrapper.convertPropertyToZod(propSchema, isRequired = false)`
(the `switch` on `propSchema.type` rendered as an equality chain). -/
def convertPropertyToZod (p : JSchema) (isRequired : Bool := false) : ZodType :=
  match p with
  | .mk ty _ _ items desc =>
    let zodType : ZodType :=
      if ty = some "string" then applyDescribe .string desc
      else if ty = some "number" then applyDescribe .number desc
      else if ty = some "integer" then applyDescribe .intNumber desc
      else if ty = some "boolean" then applyDescribe .boolean desc
      else if ty = some "array" then
        let itemType : ZodType :=
          match items with
          | some it => convertPropertyToZod it
          | none => .any
        applyDescribe (.array itemType) desc
      else if ty = some "object" then applyDescribe (.object []) desc
      else applyDescribe .any desc
    if isRequired then zodType else .optional zodType

/-- `mcpSchema.required?.includes(key)` with the `isRequired = false`
default applied when `required` is absent. -/
def requiredIncludes (required : Option (List String)) (key : String) : Bool :=
  match required with
  | some l => l.contains key
  | none => false

/-- `MCPToolWrapper.convertMCPSchemaToZod(mcpSchema)`. -/
def convertMCPSchemaToZod (mcpSchema : JSchema) : ZodType :=
  if mcpSchema.type = some "object" then
    let shape : List (String × ZodType) :=
      match mcpSchema.properties with
      | some props =>
        props.map (fun kp =>
          (kp.1, convertPropertyToZod kp.2 (requiredIncludes mcpSchema.required kp.1)))
      | none => []
    .object shape
  else .any

/-! ### The invocation wrapper (`createTool`'s `func`) -/

/-- One element of `result.content.map(...)`:
`typeof item === 'object' ? (item.text || JSON.stringify(item)) : String(item)`.
`typeof null === 'object'`, so a `null` item reaches `item.text`, which
throws a TypeError (node's message text); the `Except` carries that thrown
error to the wrapper's `catch`. -/
def formatContentItem : JsValue → Except String String
  | .null => .error "Cannot read properties of null (reading 'text')"
  | item =>
    if item.typeofObject then
      match item.getField "text" with
      | some t => .ok (if t.truthy then jsString t else jsonStringify item)
      | none => .ok (jsonStringify item)
    else .ok (jsString item)

/-- The `data` / fallback checks of `func`:
`if (result.data) return JSON.stringify(result.data, null, 2); return JSON.stringify(result, null, 2)`. -/
def formatData (result : JsValue) : JsValue :=
  match result.getField "data" with
  | some d =>
    if d.truthy then .str (jsonStringify d)
    else .str (jsonStringify result)
  | none => .str (jsonStringify result)

/-- The `text` / `data` / fallback checks of `func` after the `content`
check: `if (result.text) return result.text; ...`.  Note that the `text`
branch returns `result.text` unchanged, whatever JS value it is. -/
def formatRest (result : JsValue) : JsValue :=
  match result.getField "text" with
  | some t =>
    if t.truthy then t
    else formatData result
  | none => formatData result

/-- Result normalisation inside the `try` block of `func`, given the value
the remote call resolved with; `.error` is an exception thrown while
formatting (a `null` content item), which propagates to the `catch`. -/
def formatResult (result : JsValue) : Except String JsValue :=
  if result.truthy && result.typeofObject then
    match result.getField "content" with
    | some content =>
      if content.truthy then
        match content with
        | .arr items =>
          (items.mapM formatContentItem).map (fun texts => .str (jsJoin "\n" texts))
        | c => .ok (.str (jsString c))
      else
        .ok (formatRest result)
    | none => .ok (formatRest result)
  else
    .ok (.str (jsString result))

/-- The whole `func`: the `try` block awaits `mcpManager.callTool` and then
formats the result; the single `catch` converts anything thrown by either
step into a human-readable string. -/
def invoke (toolName : String) (callResult : Except String JsValue) : JsValue :=
  match callResult with
  | .error msg => .str ("Error calling MCP tool " ++ toolName ++ ": " ++ msg)
  | .ok result =>
    match formatResult result with
    | .ok v => v
    | .error msg => .str ("Error calling MCP tool " ++ toolName ++ ": " ++ msg)

end MCPToolWrapper

/-! ## The MCP client (`mcp-client.ts`)

One `MCPClient` owns one subprocess.  Its mutable fields (`process`,
`requestId`, `pendingRequests`, `isConnected`, `tools`, plus the `buffer`
closure variable of the stdout handler) form `ClientState`; every event
handler and callback of the source becomes an explicit transition on that
state.  Time is a `Nat` of milliseconds. -/

/-- `MCPTool` (mcp-client.ts). -/
structure MCPTool where
  name : String
  description : String
  inputSchema : JSchema

/-- `MCPRequest` (mcp-client.ts); ids are allocated from the numeric counter. -/
structure MCPRequest where
  jsonrpc : String
  id : Nat
  method : String
  params : JsValue

/-- The `error` member of `MCPResponse`. -/
structure MCPErrorPayload where
  code : Int
  message : String

/-- `MCPResponse` (mcp-client.ts). -/
structure MCPResponse where
  jsonrpc : String
  id : Nat
  result : Option JsValue
  error : Option MCPErrorPayload

/-- How a pending request was settled (which promise callback ran, and with
what). -/
inductive Outcome where
  | resolved (id : Nat) (response : MCPResponse)
  | rejectedMCPError (id : Nat) (message : String)
  | rejectedTimeout (id : Nat)
  | rejectedDisconnected (id : Nat)

def Outcome.requestId : Outcome → Nat
  | .resolved id _ => id
  | .rejectedMCPError id _ => id
  | .rejectedTimeout id => id
  | .rejectedDisconnected id => id

/-- The mutable state of one `MCPClient`.  The pending-request table maps a
request id to its entry; an entry is modelled by its timeout deadline (the
resolve/reject handles become the returned `Outcome`s). -/
structure ClientState where
  process : Option Nat
  requestId : Nat
  pending : List (Nat × Nat)
  isConnected : Bool
  tools : List MCPTool
  buffer : List Char

namespace MCPClient

/-- `pendingRequests.get(id)` / `pendingRequests.has(id)` on the
association-list model of the JS `Map`. -/
def pendingGet : List (Nat × Nat) → Nat → Option Nat
  | [], _ => none
  | e :: rest, id => if e.1 = id then some e.2 else pendingGet rest id

/-- `pendingRequests.delete(id)` (ids are unique keys of a JS `Map`). -/
def pendingDelete (pending : List (Nat × Nat)) (id : Nat) : List (Nat × Nat) :=
  pending.filter (fun e => e.1 ≠ id)

/-- The per-request timeout, hard-coded as `30000` ms in `sendRequest`. -/
def requestTimeoutMs : Nat := 30000

/-- `MCPClient.sendRequest(method, params)` up to its suspension point:
checks the stdin pipe, allocates `++this.requestId`, records the pending
entry with its timeout deadline, and writes one framed request line.
`now` is the send time in ms. -/
def sendRequest (st : ClientState) (now : Nat) (method : String) (params : JsValue) :
    Except String (ClientState × MCPRequest) :=
  if st.process.isNone then
    .error "MCP server is not connected"
  else
    let id := st.requestId + 1
    .ok ({ st with requestId := id, pending := st.pending ++ [(id, now + requestTimeoutMs)] },
         { jsonrpc := "2.0", id := id, method := method, params := params })

/-- The `setTimeout` callback registered by `sendRequest` for request `id`:
if the entry is still pending, remove it and reject with the timeout error;
otherwise do nothing. -/
def timeoutFire (st : ClientState) (id : Nat) : ClientState × Option Outcome :=
  if (pendingGet st.pending id).isSome then
    ({ st with pending := pendingDelete st.pending id }, some (.rejectedTimeout id))
  else
    (st, none)

/-- `MCPClient.handleResponse(response)`. -/
def handleResponse (st : ClientState) (resp : MCPResponse) : ClientState × Option Outcome :=
  match pendingGet st.pending resp.id with
  | some _ =>
    let st' := { st with pending := pendingDelete st.pending resp.id }
    match resp.error with
    | some e => (st', some (.rejectedMCPError resp.id ("MCP error: " ++ e.message)))
    | none => (st', some (.resolved resp.id resp))
  | none => (st, none)

/-- Events emitted to the owner (`this.emit(...)`). -/
inductive ClientEvent where
  | connectEvent
  | disconnectEvent (code : Option Int) (signal : Option String)
  | errorEvent (message : String)

/-- The `process.on('exit', ...)` handler: flips `isConnected` and emits the
`disconnect` event.  (It touches nothing else.) -/
def onProcessExit (st : ClientState) (code : Option Int) (signal : Option String) :
    ClientState × List ClientEvent :=
  ({ st with isConnected := false }, [.disconnectEvent code signal])

/-- `MCPClient.cleanup()`: reset connection state and reject every pending
request with the disconnection error, then clear the table. -/
def cleanup (st : ClientState) : ClientState × List Outcome :=
  ({ st with isConnected := false, process := none, tools := [], pending := [] },
   st.pending.map (fun e => .rejectedDisconnected e.1))

/-- Signals sent to the subprocess. -/
inductive ProcAction where
  | spawn (pid : Nat)
  | kill (signal : String)

/-- `MCPClient.disconnect()`: send SIGTERM when a process is running (the
delayed SIGKILL is a separate timer, not modelled), then `cleanup()`. -/
def disconnect (st : ClientState) : ClientState × List ProcAction × List Outcome :=
  let actions := if st.process.isSome then [ProcAction.kill "SIGTERM"] else []
  let (st', outs) := cleanup st
  (st', actions, outs)

/-- The outcome of the spawn + `initialize` + `tools/list` sequence inside
`connect()`'s `try` block, abstracted as a parameter (those steps are
request/response round trips already modelled by `sendRequest` /
`handleResponse`). -/
inductive HandshakeOutcome where
  | handshakeOk (tools : List MCPTool)
  | handshakeErr (message : String)

/-- Result of `connect()`: either a thrown error or the connected state,
together with the subprocess actions performed. -/
inductive ConnectResult where
  | failed (st : ClientState) (actions : List ProcAction) (message : String)
  | connected (st : ClientState) (actions : List ProcAction)

/-- `MCPClient.connect()`: the already-running guard throws before anything
is mutated or spawned; otherwise the process is spawned and the handshake
runs inside `try`, whose `catch` calls `cleanup()` and rethrows. -/
def connect (st : ClientState) (pid : Nat) (handshake : HandshakeOutcome) : ConnectResult :=
  if st.process.isSome then
    .failed st [] "MCP server is already running"
  else
    let st1 := { st with process := some pid }
    match handshake with
    | .handshakeOk tools =>
      .connected { st1 with tools := tools, isConnected := true } [.spawn pid]
    | .handshakeErr msg =>
      .failed (cleanup st1).1 [.spawn pid] msg

/-- `line.trim()` is truthy: the line has a non-whitespace character. -/
def lineNonblank (line : List Char) : Bool :=
  line.any (fun c => !c.isWhitespace)

/-- Processing of one complete line inside the stdout handler's loop:
blank lines are skipped; `JSON.parse` failure (`parse line = none`) is
logged and the line dropped; a parsed response goes to `handleResponse`. -/
def processLine (parse : List Char → Option MCPResponse) (st : ClientState)
    (line : List Char) : ClientState × Option Outcome :=
  if lineNonblank line then
    match parse line with
    | some resp => handleResponse st resp
    | none => (st, none)
  else
    (st, none)

/-- The complete lines extracted by one run of the stdout handler:
`(buffer + chunk).split('\n')` with the last segment popped off. -/
def completeLines (buffer chunk : List Char) : List (List Char) :=
  (splitOnChar '\n' (buffer ++ chunk)).dropLast

/-- The segment kept in `buffer` by `buffer = lines.pop() || ''`. -/
def newBuffer (buffer chunk : List Char) : List Char :=
  ((splitOnChar '\n' (buffer ++ chunk)).getLast?).getD []

/-- The `stdout.on('data', ...)` handler: append the chunk to the buffer,
split on newlines, retain the trailing partial line, and process each
complete line in order. -/
def onData (parse : List Char → Option MCPResponse) (st : ClientState)
    (chunk : List Char) : ClientState × List Outcome :=
  (completeLines st.buffer chunk).foldl
    (fun acc line =>
      ((processLine parse acc.1 line).1,
       acc.2 ++ (processLine parse acc.1 line).2.toList))
    ({ st with buffer := newBuffer st.buffer chunk }, [])

end MCPClient

/-! ## The MCP manager (`mcp-manager.ts`) -/

/-- `MCPServerConfig` (mcp-client.ts), as read by the manager. -/
structure MCPServerConfig where
  name : String
  command : String
  args : List String
  enabled : Bool

/-- `MCPToolWithServer` (mcp-manager.ts). -/
structure MCPToolWithServer where
  name : String
  description : String
  inputSchema : JSchema
  serverName : String

namespace MCPManager

/-- `this.clients.get(name)` on the insertion-ordered client map. -/
def clientsGet (clients : List (String × ClientState)) (name : String) :
    Option ClientState :=
  (clients.find? (fun e => e.1 == name)).map (·.2)

/-- `MCPManager.getAllTools()`: for each connected client, its tools with
the server-name qualification `serverName + "_" + tool.name`. -/
def getAllTools (clients : List (String × ClientState)) : List MCPToolWithServer :=
  clients.flatMap (fun e =>
    if e.2.isConnected then
      e.2.tools.map (fun t =>
        { name := e.1 ++ "_" ++ t.name
          description := t.description
          inputSchema := t.inputSchema
          serverName := e.1 })
    else [])

/-- The errors `MCPManager.callTool` (and the delegated send) can throw. -/
inductive RouteError where
  | invalidFormat (toolName : String)
  | serverNotFound (serverName : String)
  | serverNotConnected (serverName : String)
  | clientNotConnected
deriving Repr, DecidableEq

/-- `MCPClient.callTool(name, args)` up to its suspension point: delegate to
`sendRequest('tools/call', \x7bname, arguments\x7d)`.  (Awaiting the reply and
the `response.error` check are the correlation machinery above.) -/
def clientCallTool (st : ClientState) (now : Nat) (name : String) (args : JsValue) :
    Except String (ClientState × MCPRequest) :=
  MCPClient.sendRequest st now "tools/call" (.obj [("name", .str name), ("arguments", args)])

/-- `MCPManager.callTool(toolName, arguments_)`: split the qualified name on
`'_'`, take the first segment as the server name and rejoin the rest as the
local tool name, then route. -/
def callTool (clients : List (String × ClientState)) (now : Nat)
    (toolName : String) (args : JsValue) :
    Except RouteError (ClientState × MCPRequest) :=
  let parts := splitOnChar '_' toolName.data
  if parts.length < 2 then
    .error (.invalidFormat toolName)
  else
    let serverName : String := ⟨parts.headD []⟩
    let originalToolName : String := ⟨joinSep '_' (parts.drop 1)⟩
    match clientsGet clients serverName with
    | none => .error (.serverNotFound serverName)
    | some client =>
      if !client.isConnected then
        .error (.serverNotConnected serverName)
      else
        match clientCallTool client now originalToolName args with
        | .ok r => .ok r
        | .error _ => .error .clientNotConnected

/-- How one server's `client.connect()` attempt settled (each attempt runs
in its own async closure with its own `try`/`catch`, joined by
`Promise.allSettled`; `success` carries the connected client's state). -/
inductive ConnectOutcome where
  | success (client : ClientState)
  | failure (message : String)

def ConnectOutcome.isSuccess : ConnectOutcome → Bool
  | .success _ => true
  | .failure _ => false

/-- `MCPManager.initializeServers()`: every enabled server is attempted; a
successful attempt registers its client under the server's name, a failed
attempt only logs.  The map is built in settlement order, modelled here as
configuration order (one linearisation of `Promise.allSettled`). -/
def initializeServers (servers : List (MCPServerConfig × ConnectOutcome)) :
    List (String × ClientState) :=
  (servers.filter (fun s => s.1.enabled)).foldl
    (fun clients s =>
      match s.2 with
      | .success client => clients ++ [(s.1.name, client)]
      | .failure _ => clients)
    []

/-- The client a successful outcome registers (dummy value for failures;
only ever applied to successes). -/
def successClient : ConnectOutcome → ClientState
  | .success c => c
  | .failure _ =>
    { process := none, requestId := 0, pending := [], isConnected := false,
      tools := [], buffer := [] }

/-- One row of `MCPManager.getServerStatus()`. -/
structure ServerStatus where
  name : String
  connected : Bool
  toolCount : Nat
  config : MCPServerConfig

/-- `MCPManager.getServerStatus()`: one row per configured server;
`client?.isServerConnected() || false` and `client?.getTools().length || 0`. -/
def getServerStatus (configured : List MCPServerConfig)
    (clients : List (String × ClientState)) : List ServerStatus :=
  configured.map (fun cfg =>
    match clientsGet clients cfg.name with
    | some client =>
      { name := cfg.name, connected := client.isConnected,
        toolCount := client.tools.length, config := cfg }
    | none =>
      { name := cfg.name, connected := false, toolCount := 0, config := cfg })

end MCPManager

/-! ## Concrete example states and invariants -/

/-- A schema with every field absent, for concrete examples. -/
def emptySchema : JSchema := .mk none none none none none

/-- A connected client state with two outstanding requests, used as the
concrete scenario for the process-exit analysis. -/
def crashedState : ClientState :=
  { process := some 11, requestId := 2, pending := [(1, 30000), (2, 31000)],
    isConnected := true, tools := [], buffer := [] }

/-- Two connected clients whose server names and local tool names collide
after qualification: server `a` exposes local tool `b_x` and server `a_b`
exposes local tool `x`; both qualify to `a_b_x`. -/
def collidingClients : List (String × ClientState) :=
  [("a", { process := some 1, requestId := 0, pending := [], isConnected := true,
           tools := [{ name := "b_x", description := "", inputSchema := emptySchema }],
           buffer := [] }),
   ("a_b", { process := some 2, requestId := 0, pending := [], isConnected := true,
             tools := [{ name := "x", description := "", inputSchema := emptySchema }],
             buffer := [] })]

/-- Well-formedness the client maintains on its pending table: every pending
id was issued by the counter, and pending ids are pairwise distinct (they
are keys of a JS `Map`). -/
def pendingWF (st : ClientState) : Prop :=
  (∀ e ∈ st.pending, e.1 ≤ st.requestId) ∧ (st.pending.map (fun e => e.1)).Nodup

/-- A connected client with one outstanding request (id 1). -/
def onePendingState : ClientState :=
  { process := some 5, requestId := 1, pending := [(1, 30100)],
    isConnected := true, tools := [], buffer := [] }

/-- A response matching the outstanding request of `onePendingState`. -/
def respOne : MCPResponse :=
  { jsonrpc := "2.0", id := 1, result := none, error := none }

/-- Two enabled server configurations with distinct names. -/
def cfgA : MCPServerConfig :=
  { name := "alpha", command := "run-a", args := [], enabled := true }

def cfgB : MCPServerConfig :=
  { name := "beta", command := "run-b", args := [], enabled := true }

/-- A registry run in which `alpha` connects and `beta` fails to spawn. -/
def mixedServers : List (MCPServerConfig × MCPManager.ConnectOutcome) :=
  [(cfgA, .success { process := some 3, requestId := 2, pending := [],
                     isConnected := true, tools := [], buffer := [] }),
   (cfgB, .failure "spawn ENOENT")]

/-! ## Claim theorems -/

/-- C1 counterexample: with two requests pending, the `process.on('exit')`
handler leaves the pending-request table exactly as it was (nothing is
rejected, nothing cleared), whereas `disconnect()`'s `cleanup()` rejects
both entries and clears the table — so the unexpected-exit draining the
claim describes does not happen. -/
theorem processExit_does_not_drain :
    (MCPClient.onProcessExit crashedState (some 137) none).1.pending = [(1, 30000), (2, 31000)] ∧
    (MCPClient.onProcessExit crashedState (some 137) none).1.pending ≠ [] ∧
    ((MCPClient.onProcessExit crashedState (some 137) none).2.length = 1) ∧
    (MCPClient.cleanup crashedState).1.pending = [] ∧
    (MCPClient.cleanup crashedState).2.map Outcome.requestId = [1, 2] := by
  refine ⟨rfl, by decide, rfl, rfl, rfl⟩

/-- C1 amended: an unexpected subprocess exit flips the connection to
disconnected and emits the `disconnect` event to the owner, but does not
reject any pending request, clear the pending-request table, or reset the
process handle — unlike `disconnect()`, whose `cleanup()` rejects every
pending request with the disconnection error and clears the table. -/
theorem processExit_marks_disconnected_only (st : ClientState) (code : Option Int)
    (signal : Option String) :
    ((MCPClient.onProcessExit st code signal).1.isConnected = false) ∧
    ((MCPClient.onProcessExit st code signal).1.pending = st.pending) ∧
    ((MCPClient.onProcessExit st code signal).1.process = st.process) ∧
    ((MCPClient.onProcessExit st code signal).1.tools = st.tools) ∧
    ((MCPClient.onProcessExit st code signal).2 = [.disconnectEvent code signal]) ∧
    ((MCPClient.disconnect st).1.pending = []) ∧
    ((MCPClient.disconnect st).1.isConnected = false) ∧
    ((MCPClient.disconnect st).2.2 =
      st.pending.map (fun e => Outcome.rejectedDisconnected e.1)) := by
  refine ⟨rfl, rfl, rfl, rfl, rfl, ?_, ?_, ?_⟩ <;>
    simp [MCPClient.disconnect, MCPClient.cleanup]

/-- C2 counterexample: `getAllTools` lists the qualified name `a_b_x`
twice — colliding qualified names are not deduplicated, no
first-registered-wins resolution happens, and nothing distinguishes the
duplicate (the source has no collision check at all). -/
theorem getAllTools_lists_duplicate_qualified_name :
    ((MCPManager.getAllTools collidingClients).map (fun t => t.name)) = ["a_b_x", "a_b_x"] ∧
    ¬ ((MCPManager.getAllTools collidingClients).map (fun t => t.name)).Nodup := by
  constructor
  · rfl
  · decide

/-- C2 amended: `getAllTools` returns one entry per tool of each connected
server, qualified as `serverName + "_" + localName` and tagged with its
server; the catalog is a plain concatenation — when two tools map to the
same qualified name, every colliding tool is listed (no deduplication, no
first-registered-wins, no warning). -/
theorem getAllTools_concatenates_qualified (clients : List (String × ClientState)) :
    ((MCPManager.getAllTools clients).length =
      (clients.map (fun e => if e.2.isConnected then e.2.tools.length else 0)).sum) ∧
    (∀ t ∈ MCPManager.getAllTools clients,
      ∃ c localTool, (t.serverName, c) ∈ clients ∧ c.isConnected = true ∧
        localTool ∈ c.tools ∧ t.name = t.serverName ++ "_" ++ localTool.name) := by
  constructor
  · induction clients with
    | nil => rfl
    | cons e rest ih =>
      simp only [MCPManager.getAllTools, List.flatMap_cons, List.map_cons, List.sum_cons,
        List.length_append] at *
      rw [ih]
      by_cases hc : e.2.isConnected
      · simp [hc]
      · simp [hc]
  · intro t ht
    simp only [MCPManager.getAllTools, List.mem_flatMap] at ht
    obtain ⟨e, he, hte⟩ := ht
    by_cases hc : e.2.isConnected
    · rw [if_pos hc] at hte
      simp only [List.mem_map] at hte
      obtain ⟨lt, hlt, rfl⟩ := hte
      exact ⟨e.2, lt, by simpa using he, hc, hlt, rfl⟩
    · rw [if_neg hc] at hte
      exact absurd hte (List.not_mem_nil t)

/-- C2 amended, witness: the first colliding entry of the concrete catalog
is accounted for by server `a`'s local tool `b_x`. -/
theorem getAllTools_concatenates_qualified_witness :
    ∃ c localTool, ("a", c) ∈ collidingClients ∧ c.isConnected = true ∧
      localTool ∈ c.tools ∧ "a_b_x" = "a" ++ "_" ++ localTool.name := by
  have h := (getAllTools_concatenates_qualified collidingClients).2
  have hm : ∀ t ∈ MCPManager.getAllTools collidingClients,
      ∃ c localTool, (t.serverName, c) ∈ collidingClients ∧ c.isConnected = true ∧
        localTool ∈ c.tools ∧ t.name = t.serverName ++ "_" ++ localTool.name := h
  exact hm { name := "a_b_x", description := "", inputSchema := emptySchema,
             serverName := "a" } (List.mem_cons_self _ _)

/-! ### Pending-table lemmas (for the correlation and timeout claims) -/

theorem pendingGet_isSome_iff (pending : List (Nat × Nat)) (id : Nat) :
    (MCPClient.pendingGet pending id).isSome = true ↔
      id ∈ pending.map (fun e => e.1) := by
  induction pending with
  | nil => simp [MCPClient.pendingGet]
  | cons e rest ih =>
    simp only [MCPClient.pendingGet, List.map_cons, List.mem_cons]
    by_cases h : e.1 = id
    · simp [h]
    · have hne : id ≠ e.1 := fun hh => h hh.symm
      simp [h, hne, ih]

theorem pendingGet_eq_none_of_not_mem (pending : List (Nat × Nat)) (id : Nat)
    (h : id ∉ pending.map (fun e => e.1)) :
    MCPClient.pendingGet pending id = none := by
  rcases hg : MCPClient.pendingGet pending id with _ | d
  · rfl
  · exact absurd ((pendingGet_isSome_iff pending id).1 (by simp [hg])) h

theorem pendingGet_append_single (pending : List (Nat × Nat)) (id d : Nat)
    (h : id ∉ pending.map (fun e => e.1)) :
    MCPClient.pendingGet (pending ++ [(id, d)]) id = some d := by
  induction pending with
  | nil => simp [MCPClient.pendingGet]
  | cons e rest ih =>
    simp only [List.map_cons, List.mem_cons, not_or] at h
    have hne : e.1 ≠ id := fun hh => h.1 hh.symm
    simpa [MCPClient.pendingGet, List.cons_append, hne] using ih h.2

theorem pendingDelete_ids_not_mem (pending : List (Nat × Nat)) (id : Nat) :
    id ∉ (MCPClient.pendingDelete pending id).map (fun e => e.1) := by
  intro hmem
  simp only [MCPClient.pendingDelete, List.mem_map, List.mem_filter,
    decide_eq_true_eq] at hmem
  obtain ⟨e, ⟨_, hne⟩, heq⟩ := hmem
  exact hne heq

theorem pendingDelete_mem_of_ne (pending : List (Nat × Nat)) (id : Nat)
    (e : Nat × Nat) (he : e ∈ pending) (hne : e.1 ≠ id) :
    e ∈ MCPClient.pendingDelete pending id := by
  simp [MCPClient.pendingDelete, List.mem_filter, he, hne]

theorem pendingDelete_length (pending : List (Nat × Nat)) (id : Nat)
    (hnd : (pending.map (fun e => e.1)).Nodup)
    (hm : id ∈ pending.map (fun e => e.1)) :
    (MCPClient.pendingDelete pending id).length + 1 = pending.length := by
  induction pending with
  | nil => simp at hm
  | cons e rest ih =>
    simp only [List.map_cons, List.nodup_cons] at hnd
    simp only [List.map_cons, List.mem_cons] at hm
    by_cases he : e.1 = id
    · have hrest : MCPClient.pendingDelete rest id = rest := by
        refine List.filter_eq_self.2 (fun a ha => ?_)
        have hne : a.1 ≠ id := by
          intro hcontra
          exact hnd.1 (he ▸ hcontra ▸ List.mem_map_of_mem (fun e => e.1) ha)
        simpa using hne
      have hstep : MCPClient.pendingDelete (e :: rest) id = MCPClient.pendingDelete rest id := by
        simp [MCPClient.pendingDelete, List.filter_cons, he]
      rw [hstep, hrest, List.length_cons]
    · have hm' : id ∈ rest.map (fun e => e.1) := by
        rcases hm with hm | hm
        · exact absurd hm.symm he
        · exact hm
      have hrec := ih hnd.2 hm'
      have hstep : MCPClient.pendingDelete (e :: rest) id =
          e :: MCPClient.pendingDelete rest id := by
        simp [MCPClient.pendingDelete, List.filter_cons, he]
      rw [hstep]
      simp only [List.length_cons]
      omega

theorem pendingDelete_nodup (pending : List (Nat × Nat)) (id : Nat)
    (hnd : (pending.map (fun e => e.1)).Nodup) :
    ((MCPClient.pendingDelete pending id).map (fun e => e.1)).Nodup := by
  have hsub : List.Sublist
      ((MCPClient.pendingDelete pending id).map (fun e => e.1))
      (pending.map (fun e => e.1)) :=
    (List.filter_sublist pending).map (fun e => e.1)
  exact hnd.sublist hsub

/-- C10: calling `connect()` while the subprocess handle is still set throws
`MCP server is already running` before anything happens: no second spawn, no
state change of any kind (the guard precedes the `try` block and every
mutation). -/
theorem connect_whileRunning_fails (st : ClientState) (pid p : Nat)
    (hs : MCPClient.HandshakeOutcome) (h : st.process = some p) :
    MCPClient.connect st pid hs = .failed st [] "MCP server is already running" := by
  simp [MCPClient.connect, h]

/-- C10 witness: a client with a live process handle rejects a second
`connect()` untouched. -/
theorem connect_whileRunning_fails_witness :
    MCPClient.connect crashedState 9 (.handshakeOk []) =
      .failed crashedState [] "MCP server is already running" :=
  connect_whileRunning_fails crashedState 9 11 (.handshakeOk []) rfl

/-- C4: request ids come from the strictly increasing counter, so a freshly
allocated id never collides with a concurrently pending one (and the table
stays well-formed); a response whose id matches a pending entry settles
exactly that request — the entry is removed exactly once, every other entry
survives, and the settled outcome carries the response's id; a response
whose id has no pending entry leaves the whole state unchanged. -/
theorem correlation_by_unique_id (st : ClientState) (h : pendingWF st)
    (now : Nat) (method : String) (params : JsValue) (resp : MCPResponse) :
    (∀ st' req, MCPClient.sendRequest st now method params = .ok (st', req) →
        req.id = st.requestId + 1 ∧
        req.id ∉ st.pending.map (fun e => e.1) ∧
        pendingWF st') ∧
    (resp.id ∈ st.pending.map (fun e => e.1) →
        (MCPClient.handleResponse st resp).1.pending.length + 1 = st.pending.length ∧
        resp.id ∉ (MCPClient.handleResponse st resp).1.pending.map (fun e => e.1) ∧
        (∀ e ∈ st.pending, e.1 ≠ resp.id →
            e ∈ (MCPClient.handleResponse st resp).1.pending) ∧
        (∃ out, (MCPClient.handleResponse st resp).2 = some out ∧
            out.requestId = resp.id)) ∧
    (resp.id ∉ st.pending.map (fun e => e.1) →
        MCPClient.handleResponse st resp = (st, none)) := by
  have hfresh : st.requestId + 1 ∉ st.pending.map (fun e => e.1) := by
    intro hmem
    obtain ⟨e, he, hid⟩ := List.mem_map.1 hmem
    have := h.1 e he
    omega
  refine ⟨?_, ?_, ?_⟩
  · intro st' req heq
    unfold MCPClient.sendRequest at heq
    split at heq
    · exact absurd heq (by simp)
    · injection heq with hpair
      injection hpair with hst' hreq
      subst hst' hreq
      refine ⟨rfl, hfresh, ?_, ?_⟩
      · intro e he
        rcases List.mem_append.1 he with he | he
        · exact Nat.le_succ_of_le (h.1 e he)
        · simp only [List.mem_singleton] at he
          simp [he]
      · simp only [List.map_append]
        refine h.2.append (by simp) ?_
        intro a ha hb
        simp only [List.map_cons, List.map_nil, List.mem_singleton] at hb
        exact hfresh (hb ▸ ha)
  · intro hmem
    have hsome : (MCPClient.pendingGet st.pending resp.id).isSome = true :=
      (pendingGet_isSome_iff st.pending resp.id).2 hmem
    obtain ⟨d, hget⟩ := Option.isSome_iff_exists.1 hsome
    rcases herr : resp.error with _ | e
    · refine ⟨?_, ?_, ?_, ?_⟩ <;>
        simp only [MCPClient.handleResponse, hget, herr]
      · exact pendingDelete_length st.pending resp.id h.2 hmem
      · exact pendingDelete_ids_not_mem st.pending resp.id
      · exact fun e he hne => pendingDelete_mem_of_ne st.pending resp.id e he hne
      · exact ⟨.resolved resp.id resp, rfl, rfl⟩
    · refine ⟨?_, ?_, ?_, ?_⟩ <;>
        simp only [MCPClient.handleResponse, hget, herr]
      · exact pendingDelete_length st.pending resp.id h.2 hmem
      · exact pendingDelete_ids_not_mem st.pending resp.id
      · exact fun e he hne => pendingDelete_mem_of_ne st.pending resp.id e he hne
      · exact ⟨.rejectedMCPError resp.id ("MCP error: " ++ e.message), rfl, rfl⟩
  · intro hmem
    have hnone := pendingGet_eq_none_of_not_mem st.pending resp.id hmem
    simp [MCPClient.handleResponse, hnone]

/-- C4 witness: on a client with request 1 pending, the matching response
removes exactly that entry, and a response with the unknown id 9 changes
nothing. -/
theorem correlation_by_unique_id_witness :
    ((MCPClient.handleResponse onePendingState respOne).1.pending.length + 1 =
        onePendingState.pending.length) ∧
    (MCPClient.handleResponse onePendingState
        { jsonrpc := "2.0", id := 9, result := none, error := none } =
      (onePendingState, none)) := by
  constructor
  · exact ((correlation_by_unique_id onePendingState ⟨by decide, by decide⟩ 0 "m" .null
      respOne).2.1 (by decide)).1
  · exact (correlation_by_unique_id onePendingState ⟨by decide, by decide⟩ 0 "m" .null
      _).2.2 (by decide)

/-- C5: every request sent records an independent deadline of
`send time + 30000` ms (the hard-coded 30-second default); when the timer
callback fires with the entry still pending, the entry is removed and the
call rejected with the timeout error — so an unanswered call is settled by
its timer rather than staying pending — and a response for that id arriving
after the removal is discarded with no effect on the state. -/
theorem timeout_settles_then_late_response_discarded (st : ClientState)
    (h : pendingWF st) (now : Nat) (method : String) (params : JsValue) :
    MCPClient.requestTimeoutMs = 30000 ∧
    ∀ st' req, MCPClient.sendRequest st now method params = .ok (st', req) →
      MCPClient.pendingGet st'.pending req.id = some (now + MCPClient.requestTimeoutMs) ∧
      (MCPClient.timeoutFire st' req.id).2 = some (.rejectedTimeout req.id) ∧
      req.id ∉ (MCPClient.timeoutFire st' req.id).1.pending.map (fun e => e.1) ∧
      ∀ resp : MCPResponse, resp.id = req.id →
        MCPClient.handleResponse (MCPClient.timeoutFire st' req.id).1 resp =
          ((MCPClient.timeoutFire st' req.id).1, none) := by
  have hfresh : st.requestId + 1 ∉ st.pending.map (fun e => e.1) := by
    intro hmem
    obtain ⟨e, he, hid⟩ := List.mem_map.1 hmem
    have := h.1 e he
    omega
  refine ⟨rfl, ?_⟩
  intro st' req heq
  unfold MCPClient.sendRequest at heq
  split at heq
  · exact absurd heq (by simp)
  · injection heq with hpair
    injection hpair with hst' hreq
    subst hst' hreq
    have hget := pendingGet_append_single st.pending (st.requestId + 1)
      (now + MCPClient.requestTimeoutMs) hfresh
    refine ⟨hget, ?_, ?_, ?_⟩
    · simp [MCPClient.timeoutFire, hget]
    · simp only [MCPClient.timeoutFire, hget, Option.isSome_some, if_pos]
      exact pendingDelete_ids_not_mem _ _
    · intro resp hr
      have hnone := pendingGet_eq_none_of_not_mem
        (MCPClient.pendingDelete (st.pending ++ [(st.requestId + 1,
          now + MCPClient.requestTimeoutMs)]) (st.requestId + 1)) resp.id
        (hr ▸ pendingDelete_ids_not_mem _ _)
      simp only [MCPClient.timeoutFire, hget, Option.isSome_some, if_pos]
      simp [MCPClient.handleResponse, hnone]

/-! ### Framing lemmas (for the line-splitting claim) -/

/-- No segment produced by `splitOnChar` contains the separator. -/
theorem splitOnChar_seg_not_mem (sep : Char) (s : List Char) :
    ∀ seg ∈ splitOnChar sep s, sep ∉ seg := by
  induction s with
  | nil =>
    intro seg h
    simp only [splitOnChar, List.mem_singleton] at h
    subst h
    simp
  | cons c rest ih =>
    intro seg h
    simp only [splitOnChar] at h
    by_cases hc : c = sep
    · rw [if_pos hc] at h
      rcases List.mem_cons.1 h with h | h
      · subst h; simp
      · exact ih seg h
    · rw [if_neg hc] at h
      rcases hr : splitOnChar sep rest with _ | ⟨y, ys⟩
      · exact absurd hr (splitOnChar_ne_nil sep rest)
      · rw [hr] at h
        rcases List.mem_cons.1 h with h | h
        · subst h
          intro hmem
          rcases List.mem_cons.1 hmem with h' | h'
          · exact hc h'.symm
          · exact ih y (by rw [hr]; exact List.mem_cons_self y ys) h'
        · exact ih seg (by rw [hr]; exact List.mem_cons_of_mem y h)

theorem handleResponse_preserves_buffer (st : ClientState) (resp : MCPResponse) :
    (MCPClient.handleResponse st resp).1.buffer = st.buffer := by
  unfold MCPClient.handleResponse
  rcases hget : MCPClient.pendingGet st.pending resp.id with _ | d
  · simp [hget]
  · rcases herr : resp.error with _ | e <;> simp [hget, herr]

theorem processLine_preserves_buffer (parse : List Char → Option MCPResponse)
    (st : ClientState) (line : List Char) :
    (MCPClient.processLine parse st line).1.buffer = st.buffer := by
  unfold MCPClient.processLine
  by_cases hb : MCPClient.lineNonblank line = true
  · rw [if_pos hb]
    rcases hp : parse line with _ | resp
    · rfl
    · exact handleResponse_preserves_buffer st resp
  · rw [if_neg hb]

theorem onData_foldl_buffer (parse : List Char → Option MCPResponse)
    (lines : List (List Char)) (acc : ClientState × List Outcome) :
    ((lines.foldl
      (fun acc line =>
        ((MCPClient.processLine parse acc.1 line).1,
         acc.2 ++ (MCPClient.processLine parse acc.1 line).2.toList))
      acc).1).buffer = acc.1.buffer := by
  induction lines generalizing acc with
  | nil => rfl
  | cons l ls ih =>
    rw [List.foldl_cons, ih]
    exact processLine_preserves_buffer parse acc.1 l

/-- C5 witness: a concrete send stamps deadline `100 + 30000` and its timer
callback rejects the entry with the timeout error. -/
theorem timeout_settles_witness :
    ∃ st' req, MCPClient.sendRequest onePendingState 100 "ping" .null = .ok (st', req) ∧
      MCPClient.pendingGet st'.pending req.id = some (100 + MCPClient.requestTimeoutMs) ∧
      (MCPClient.timeoutFire st' req.id).2 = some (.rejectedTimeout req.id) := by
  have T := timeout_settles_then_late_response_discarded onePendingState
    ⟨by decide, by decide⟩ 100 "ping" .null
  exact ⟨_, _, rfl, (T.2 _ _ rfl).1, (T.2 _ _ rfl).2.1⟩

/-- C8: one stdout data event appends the chunk to the buffer and splits on
newlines: the complete lines, rejoined with the retained trailing segment,
reconstruct buffer+chunk exactly; the retained buffer never contains a
newline (it is the trailing partial line kept for the next read); and a line
that fails to parse as JSON is dropped with the entire client state
unchanged — the connection is not terminated and the pending-request table
is untouched. -/
theorem framing_split_retain_drop (parse : List Char → Option MCPResponse)
    (st : ClientState) (chunk line : List Char) (hline : parse line = none) :
    ((MCPClient.onData parse st chunk).1.buffer = MCPClient.newBuffer st.buffer chunk) ∧
    '\n' ∉ MCPClient.newBuffer st.buffer chunk ∧
    (joinSep '\n' (MCPClient.completeLines st.buffer chunk ++
        [MCPClient.newBuffer st.buffer chunk]) = st.buffer ++ chunk) ∧
    MCPClient.processLine parse st line = (st, none) := by
  have hne := splitOnChar_ne_nil '\n' (st.buffer ++ chunk)
  have hlast := List.getLast?_eq_getLast_of_ne_nil hne
  refine ⟨?_, ?_, ?_, ?_⟩
  · unfold MCPClient.onData
    exact onData_foldl_buffer parse _ _
  · unfold MCPClient.newBuffer
    rw [hlast]
    simp only [Option.getD_some]
    exact splitOnChar_seg_not_mem '\n' (st.buffer ++ chunk) _ (List.getLast_mem hne)
  · unfold MCPClient.completeLines MCPClient.newBuffer
    rw [hlast]
    simp only [Option.getD_some]
    rw [List.dropLast_append_getLast hne]
    exact joinSep_splitOnChar '\n' (st.buffer ++ chunk)
  · unfold MCPClient.processLine
    by_cases hb : MCPClient.lineNonblank line = true
    · rw [if_pos hb, hline]
    · rw [if_neg hb]

/-- C8 witness: with an empty buffer, the chunk `a\nb` retains `b` as the
partial line, and the unparseable line `x` is dropped with no state
change. -/
theorem framing_split_retain_drop_witness :
    ((MCPClient.onData (fun _ => none) onePendingState ['a', '\n', 'b']).1.buffer = ['b']) ∧
    MCPClient.processLine (fun _ => none) onePendingState ['x'] = (onePendingState, none) := by
  have F := framing_split_retain_drop (fun _ => none) onePendingState
    ['a', '\n', 'b'] ['x'] rfl
  exact ⟨F.1.trans (by rfl), F.2.2.2⟩

/-- C3: `callTool` splits the qualified name at its first `_`: with the name
written as `pre ++ '_' :: post` where `pre` is underscore-free, the server
name is `pre` and the local name is `post`.  A name without a separator, an
unknown server name, and a known-but-disconnected server each produce a
distinct error (never a silent no-op); otherwise the call is delegated to
that client's `callTool`, which sends a `tools/call` request whose params
are exactly the local name and the caller's arguments. -/
theorem callTool_routing (clients : List (String × ClientState)) (now : Nat)
    (args : JsValue) :
    (∀ toolName : String, '_' ∉ toolName.data →
        MCPManager.callTool clients now toolName args =
          .error (.invalidFormat toolName)) ∧
    (∀ pre post : List Char, '_' ∉ pre →
        (MCPManager.clientsGet clients ⟨pre⟩ = none →
            MCPManager.callTool clients now ⟨pre ++ '_' :: post⟩ args =
              .error (.serverNotFound ⟨pre⟩)) ∧
        (∀ client, MCPManager.clientsGet clients ⟨pre⟩ = some client →
            (client.isConnected = false →
                MCPManager.callTool clients now ⟨pre ++ '_' :: post⟩ args =
                  .error (.serverNotConnected ⟨pre⟩)) ∧
            (client.isConnected = true → ∀ p, client.process = some p →
                ∃ st' req,
                  MCPManager.callTool clients now ⟨pre ++ '_' :: post⟩ args =
                    .ok (st', req) ∧
                  req.method = "tools/call" ∧
                  req.params = .obj [("name", .str ⟨post⟩), ("arguments", args)]))) := by
  constructor
  · intro toolName hmem
    have hsp : splitOnChar '_' toolName.data = [toolName.data] :=
      splitOnChar_of_not_mem '_' toolName.data hmem
    simp [MCPManager.callTool, hsp]
  · intro pre post hpre
    have hsp : splitOnChar '_' (String.mk (pre ++ '_' :: post)).data =
        pre :: splitOnChar '_' post := splitOnChar_append '_' pre post hpre
    have hlen : ¬ (pre :: splitOnChar '_' post).length < 2 := by
      rcases h : splitOnChar '_' post with _ | ⟨y, ys⟩
      · exact absurd h (splitOnChar_ne_nil '_' post)
      · simp
    have hjoin : joinSep '_' ((pre :: splitOnChar '_' post).drop 1) = post := by
      simpa using joinSep_splitOnChar '_' post
    refine ⟨?_, ?_⟩
    · intro hcg
      simp only [MCPManager.callTool, hsp, if_neg hlen, List.headD_cons, hcg]
    · intro client hcg
      refine ⟨?_, ?_⟩
      · intro hconn
        simp only [MCPManager.callTool, hsp, if_neg hlen, List.headD_cons, hcg, hconn,
          Bool.not_false, if_pos]
      · intro hconn p hproc
        simp only [MCPManager.callTool, hsp, if_neg hlen, List.headD_cons, hcg, hconn,
          Bool.not_true, Bool.false_eq_true, if_neg, MCPManager.clientCallTool,
          MCPClient.sendRequest, hproc, Option.isNone_some, Bool.false_eq_true, if_false]
        refine ⟨_, _, rfl, rfl, ?_⟩
        rw [List.drop_one, List.tail_cons] at hjoin ⊢
        rw [hjoin]

/-- C3 witness: on the colliding-clients registry, `a_b_x` routes to server
`a` with local tool `b_x`; a separator-free name is rejected. -/
theorem callTool_routing_witness :
    (MCPManager.callTool collidingClients 0 "plain" .null =
      .error (.invalidFormat "plain")) ∧
    ∃ st' req,
      MCPManager.callTool collidingClients 0 ⟨['a', '_', 'b', '_', 'x']⟩ .null =
        .ok (st', req) ∧
      req.method = "tools/call" ∧
      req.params = .obj [("name", .str ⟨['b', '_', 'x']⟩), ("arguments", .null)] := by
  have T := callTool_routing collidingClients 0 .null
  refine ⟨T.1 "plain" (by decide), ?_⟩
  exact ((T.2 ['a'] ['b', '_', 'x'] (by decide)).2 _ rfl).2 rfl 1 rfl

/-! ### Registry-initialisation lemmas (for the best-effort claim) -/

theorem initializeServers_foldl
    (servers : List (MCPServerConfig × MCPManager.ConnectOutcome))
    (acc : List (String × ClientState)) :
    (servers.foldl
      (fun clients s =>
        match s.2 with
        | .success client => clients ++ [(s.1.name, client)]
        | .failure _ => clients)
      acc) =
    acc ++ (servers.filter (fun s => s.2.isSuccess)).map
      (fun s => (s.1.name, MCPManager.successClient s.2)) := by
  induction servers generalizing acc with
  | nil => simp
  | cons s rest ih =>
    rcases s with ⟨cfg, outcome⟩
    rcases outcome with client | msg
    · simp [ih, MCPManager.ConnectOutcome.isSuccess, MCPManager.successClient,
        List.filter_cons]
    · simp [ih, MCPManager.ConnectOutcome.isSuccess, List.filter_cons]

/-- `initializeServers` registers exactly the enabled, successful servers,
in order, each under its own name. -/
theorem initializeServers_eq
    (servers : List (MCPServerConfig × MCPManager.ConnectOutcome)) :
    MCPManager.initializeServers servers =
      ((servers.filter (fun s => s.1.enabled)).filter (fun s => s.2.isSuccess)).map
        (fun s => (s.1.name, MCPManager.successClient s.2)) := by
  unfold MCPManager.initializeServers
  rw [initializeServers_foldl]
  simp

theorem getServerStatus_names (configured : List MCPServerConfig)
    (clients : List (String × ClientState)) :
    (MCPManager.getServerStatus configured clients).map (fun r => r.name) =
      configured.map (fun cfg => cfg.name) := by
  unfold MCPManager.getServerStatus
  rw [List.map_map]
  refine List.map_congr_left (fun cfg _ => ?_)
  simp only [Function.comp]
  rcases h : MCPManager.clientsGet clients cfg.name with _ | c <;> simp [h]

theorem clientsGet_some_mem (clients : List (String × ClientState))
    (name : String) (c : ClientState)
    (h : MCPManager.clientsGet clients name = some c) :
    ∃ e ∈ clients, e.1 = name ∧ e.2 = c := by
  unfold MCPManager.clientsGet at h
  rcases hf : clients.find? (fun e => e.1 == name) with _ | e
  · rw [hf] at h; simp at h
  · rw [hf] at h
    have hmem := List.mem_of_find?_eq_some hf
    have hpred := List.find?_some hf
    simp only [beq_iff_eq] at hpred
    simp only [Option.map_some'] at h
    exact ⟨e, hmem, hpred, by injection h⟩

/-- C9: initialisation is best-effort and status reporting is total — with
each enabled server's connection attempt settling independently, every
successful enabled server is registered regardless of how many others fail
(the registry holds exactly the enabled successes), and `getServerStatus`
afterwards reports exactly one row per configured server in order, with
every failed server present as `connected = false`, `toolCount = 0`. -/
theorem initializeAll_best_effort
    (servers : List (MCPServerConfig × MCPManager.ConnectOutcome))
    (hnd : (servers.map (fun s => s.1.name)).Nodup) :
    ((MCPManager.initializeServers servers).length =
      ((servers.filter (fun s => s.1.enabled)).filter (fun s => s.2.isSuccess)).length) ∧
    (∀ cfg client, (cfg, .success client) ∈ servers → cfg.enabled = true →
        (cfg.name, client) ∈ MCPManager.initializeServers servers) ∧
    ((MCPManager.getServerStatus (servers.map (fun s => s.1))
        (MCPManager.initializeServers servers)).map (fun r => r.name) =
      servers.map (fun s => s.1.name)) ∧
    (∀ cfg msg, (cfg, .failure msg) ∈ servers →
        ({ name := cfg.name, connected := false, toolCount := 0, config := cfg } :
            MCPManager.ServerStatus) ∈
          MCPManager.getServerStatus (servers.map (fun s => s.1))
            (MCPManager.initializeServers servers)) := by
  refine ⟨?_, ?_, ?_, ?_⟩
  · rw [initializeServers_eq, List.length_map]
  · intro cfg client hmem henb
    rw [initializeServers_eq]
    have h1 : (cfg, MCPManager.ConnectOutcome.success client) ∈
        servers.filter (fun s => s.1.enabled) :=
      List.mem_filter.2 ⟨hmem, by simpa using henb⟩
    have h2 : (cfg, MCPManager.ConnectOutcome.success client) ∈
        (servers.filter (fun s => s.1.enabled)).filter (fun s => s.2.isSuccess) :=
      List.mem_filter.2 ⟨h1, rfl⟩
    exact List.mem_map_of_mem _ h2
  · rw [getServerStatus_names, List.map_map]
    rfl
  · intro cfg msg hmem
    have hlookup : MCPManager.clientsGet (MCPManager.initializeServers servers)
        cfg.name = none := by
      rcases hg : MCPManager.clientsGet (MCPManager.initializeServers servers)
          cfg.name with _ | c
      · rfl
      · exfalso
        obtain ⟨e, he, hename, _⟩ := clientsGet_some_mem _ _ _ hg
        rw [initializeServers_eq] at he
        obtain ⟨s, hs, hse⟩ := List.mem_map.1 he
        have hs1 := List.mem_filter.1 hs
        have hs2 := List.mem_filter.1 hs1.1
        have hsname : s.1.name = cfg.name := by
          have : e.1 = s.1.name := by rw [← hse]
          rw [← this, hename]
        have hinj := List.inj_on_of_nodup_map hnd
        have heq : s = (cfg, MCPManager.ConnectOutcome.failure msg) :=
          hinj hs2.1 hmem hsname
        have : s.2.isSuccess = true := by simpa using hs1.2
        rw [heq] at this
        exact absurd this (by simp [MCPManager.ConnectOutcome.isSuccess])
    have hcfgmem : cfg ∈ servers.map (fun s => s.1) :=
      List.mem_map_of_mem (fun s => s.1) hmem
    have hrow : ({ name := cfg.name, connected := false, toolCount := 0, config := cfg } :
        MCPManager.ServerStatus) =
        (fun cfg => match MCPManager.clientsGet (MCPManager.initializeServers servers)
            cfg.name with
          | some client =>
            { name := cfg.name, connected := client.isConnected,
              toolCount := client.tools.length, config := cfg }
          | none =>
            { name := cfg.name, connected := false, toolCount := 0, config := cfg }) cfg := by
      simp [hlookup]
    rw [MCPManager.getServerStatus, hrow]
    exact List.mem_map_of_mem _ hcfgmem

/-- C9 witness: with `alpha` succeeding and `beta` failing to spawn, the
registry holds the one success and the status has `beta` disconnected with
zero tools. -/
theorem initializeAll_best_effort_witness :
    ((MCPManager.initializeServers mixedServers).length =
      ((mixedServers.filter (fun s => s.1.enabled)).filter
        (fun s => s.2.isSuccess)).length) ∧
    ({ name := "beta", connected := false, toolCount := 0, config := cfgB } :
        MCPManager.ServerStatus) ∈
      MCPManager.getServerStatus (mixedServers.map (fun s => s.1))
        (MCPManager.initializeServers mixedServers) := by
  have T := initializeAll_best_effort mixedServers (by decide)
  exact ⟨T.1, T.2.2.2 cfgB "spawn ENOENT"
    (List.mem_cons_of_mem _ (List.mem_cons_self _ _))⟩

/-! ### Schema-translation lemmas -/

theorem convertPropertyToZod_isOptional (p : JSchema) (r : Bool) :
    (MCPToolWrapper.convertPropertyToZod p r).isOptional = !r := by
  rcases p with ⟨ty, pr, rq, it, d⟩
  cases r
  · rcases it with _ | ii <;> rcases d with _ | dd <;> rfl
  · rcases it with _ | ii <;> rcases d with _ | dd <;>
      simp only [MCPToolWrapper.convertPropertyToZod] <;> split_ifs <;> rfl

theorem convertPropertyToZod_core_default (t : String)
    (ht : t ∉ (["string", "number", "integer", "boolean", "array", "object"] :
      List String))
    (pr : Option (List (String × JSchema))) (rq : Option (List String))
    (it : Option JSchema) (d : Option String) (r : Bool) :
    (MCPToolWrapper.convertPropertyToZod (.mk (some t) pr rq it d) r).core = .any := by
  simp only [List.mem_cons, List.not_mem_nil, or_false, not_or] at ht
  obtain ⟨h1, h2, h3, h4, h5, h6⟩ := ht
  have g1 : ¬ ((some t : Option String) = some "string") := by simp [h1]
  have g2 : ¬ ((some t : Option String) = some "number") := by simp [h2]
  have g3 : ¬ ((some t : Option String) = some "integer") := by simp [h3]
  have g4 : ¬ ((some t : Option String) = some "boolean") := by simp [h4]
  have g5 : ¬ ((some t : Option String) = some "array") := by simp [h5]
  have g6 : ¬ ((some t : Option String) = some "object") := by simp [h6]
  cases r <;> rcases it with _ | ii <;> rcases d with _ | dd <;>
    simp only [MCPToolWrapper.convertPropertyToZod, if_neg g1, if_neg g2, if_neg g3,
      if_neg g4, if_neg g5, if_neg g6] <;>
    rfl

/-- C6: the schema translation, exactly as the claim states it.  An
object-typed top-level schema becomes an object with one field per declared
property (keys preserved, in order), each translated with the
required-membership flag; translation is optional-wrapping exactly when the
property is not listed in `required`; under the optional/description
wrappers, `string`/`number`/`integer`/`boolean` map to the corresponding
primitive types, `array` maps to an array of the recursively translated
item type (permissive when no item schema is given), `object` maps to a
nested untyped (empty-shape) object, and a missing or unrecognized type tag
maps to the permissive any-type; a non-object top-level schema maps to the
permissive any-type. -/
theorem schema_translation (props : List (String × JSchema))
    (req : Option (List String)) (items : JSchema) (d : Option String)
    (p : JSchema) (r : Bool) (key : String)
    (pr : Option (List (String × JSchema))) (rq : Option (List String))
    (it : Option JSchema) :
    (MCPToolWrapper.convertMCPSchemaToZod (.mk (some "object") (some props) req it d) =
      .object (props.map (fun kp =>
        (kp.1, MCPToolWrapper.convertPropertyToZod kp.2
          (MCPToolWrapper.requiredIncludes req kp.1))))) ∧
    (MCPToolWrapper.convertMCPSchemaToZod (.mk (some "object") none req it d) =
      .object []) ∧
    ((MCPToolWrapper.convertPropertyToZod p r).isOptional = !r) ∧
    (MCPToolWrapper.requiredIncludes req key = true ↔ key ∈ req.getD []) ∧
    ((MCPToolWrapper.convertPropertyToZod (.mk (some "string") pr rq it d) r).core =
      .string) ∧
    ((MCPToolWrapper.convertPropertyToZod (.mk (some "number") pr rq it d) r).core =
      .number) ∧
    ((MCPToolWrapper.convertPropertyToZod (.mk (some "integer") pr rq it d) r).core =
      .intNumber) ∧
    ((MCPToolWrapper.convertPropertyToZod (.mk (some "boolean") pr rq it d) r).core =
      .boolean) ∧
    ((MCPToolWrapper.convertPropertyToZod (.mk (some "array") pr rq (some items) d) r).core =
      .array (MCPToolWrapper.convertPropertyToZod items)) ∧
    ((MCPToolWrapper.convertPropertyToZod (.mk (some "array") pr rq none d) r).core =
      .array .any) ∧
    ((MCPToolWrapper.convertPropertyToZod (.mk (some "object") pr rq it d) r).core =
      .object []) ∧
    ((MCPToolWrapper.convertPropertyToZod (.mk none pr rq it d) r).core = .any) ∧
    (∀ t : String,
      t ∉ (["string", "number", "integer", "boolean", "array", "object"] : List String) →
      (MCPToolWrapper.convertPropertyToZod (.mk (some t) pr rq it d) r).core = .any) ∧
    (∀ t : String, t ≠ "object" →
      MCPToolWrapper.convertMCPSchemaToZod (.mk (some t) pr rq it d) = .any) ∧
    (MCPToolWrapper.convertMCPSchemaToZod (.mk none pr rq it d) = .any) := by
  refine ⟨rfl, rfl, convertPropertyToZod_isOptional p r, ?_, ?_, ?_, ?_, ?_, ?_, ?_, ?_, ?_,
    ?_, ?_, rfl⟩
  · rcases req with _ | l <;> simp [MCPToolWrapper.requiredIncludes]
  · cases r <;> rcases it with _ | ii <;> rcases d with _ | dd <;> rfl
  · cases r <;> rcases it with _ | ii <;> rcases d with _ | dd <;> rfl
  · cases r <;> rcases it with _ | ii <;> rcases d with _ | dd <;> rfl
  · cases r <;> rcases it with _ | ii <;> rcases d with _ | dd <;> rfl
  · cases r <;> rcases d with _ | dd <;> rfl
  · cases r <;> rcases d with _ | dd <;> rfl
  · cases r <;> rcases it with _ | ii <;> rcases d with _ | dd <;> rfl
  · cases r <;> rcases it with _ | ii <;> rcases d with _ | dd <;> rfl
  · exact fun t ht => convertPropertyToZod_core_default t ht pr rq it d r
  · intro t ht
    have g : ¬ ((JSchema.mk (some t) pr rq it d).type = some "object") := by
      simp [JSchema.type, ht]
    simp [MCPToolWrapper.convertMCPSchemaToZod, g]

/-- C6 witness: an unrecognized property type translates to the permissive
type, a required property is non-optional, and a non-object top level is
permissive. -/
theorem schema_translation_witness :
    ((MCPToolWrapper.convertPropertyToZod (.mk (some "customtype") none none none none)
        true).core = .any) ∧
    (MCPToolWrapper.convertMCPSchemaToZod (.mk (some "string") none none none none) =
      .any) ∧
    ((MCPToolWrapper.convertPropertyToZod emptySchema true).isOptional = !true) := by
  have T := schema_translation [] (some ["a"]) emptySchema none emptySchema true "a"
    none none none
  exact ⟨T.2.2.2.2.2.2.2.2.2.2.2.2.1 "customtype" (by decide),
    T.2.2.2.2.2.2.2.2.2.2.2.2.2.1 "string" (by decide),
    T.2.2.1⟩

/-! ### Result-normalisation lemmas (for the invocation-wrapper claim) -/

theorem formatData_of_data (result v : JsValue)
    (hd : result.getField "data" = some v) (hv : v.truthy = true) :
    MCPToolWrapper.formatData result = .str (jsonStringify v) := by
  simp [MCPToolWrapper.formatData, hd, hv]

theorem formatData_fallback (result : JsValue)
    (hdf : JsValue.optTruthy (result.getField "data") = false) :
    MCPToolWrapper.formatData result = .str (jsonStringify result) := by
  unfold MCPToolWrapper.formatData
  rcases hgd : result.getField "data" with _ | d
  · rfl
  · rw [hgd] at hdf
    simp only [JsValue.optTruthy] at hdf
    simp [hdf]

theorem formatData_is_string (result : JsValue) :
    ∃ out, MCPToolWrapper.formatData result = .str out := by
  unfold MCPToolWrapper.formatData
  rcases hgd : result.getField "data" with _ | d
  · exact ⟨_, rfl⟩
  · by_cases hd : d.truthy = true
    · simp only [hd, if_true]
      exact ⟨_, rfl⟩
    · simp only [Bool.not_eq_true] at hd
      simp only [hd, Bool.false_eq_true, if_false]
      exact ⟨_, rfl⟩

theorem formatRest_of_text (result t : JsValue)
    (ht : result.getField "text" = some t) (htt : t.truthy = true) :
    MCPToolWrapper.formatRest result = t := by
  simp [MCPToolWrapper.formatRest, ht, htt]

theorem formatRest_skip (result : JsValue)
    (htf : JsValue.optTruthy (result.getField "text") = false) :
    MCPToolWrapper.formatRest result = MCPToolWrapper.formatData result := by
  unfold MCPToolWrapper.formatRest
  rcases hgt : result.getField "text" with _ | t
  · rfl
  · rw [hgt] at htf
    simp only [JsValue.optTruthy] at htf
    simp [htf]

theorem formatRest_is_string (result : JsValue)
    (htext : ∀ t, result.getField "text" = some t → t.truthy = true →
      ∃ u, t = .str u) :
    ∃ out, MCPToolWrapper.formatRest result = .str out := by
  unfold MCPToolWrapper.formatRest
  rcases hgt : result.getField "text" with _ | t
  · exact formatData_is_string result
  · by_cases htt : t.truthy = true
    · obtain ⟨u, rfl⟩ := htext t hgt htt
      simp only [htt, if_true]
      exact ⟨u, rfl⟩
    · simp only [Bool.not_eq_true] at htt
      simp only [htt, Bool.false_eq_true, if_false]
      exact formatData_is_string result

theorem formatResult_skip_content (fields : List (String × JsValue))
    (hc : JsValue.optTruthy ((JsValue.obj fields).getField "content") = false) :
    MCPToolWrapper.formatResult (.obj fields) =
      .ok (MCPToolWrapper.formatRest (.obj fields)) := by
  have hto : (JsValue.obj fields).truthy = true := rfl
  have htb : (JsValue.obj fields).typeofObject = true := rfl
  unfold MCPToolWrapper.formatResult
  rcases hgc : (JsValue.obj fields).getField "content" with _ | c
  · simp only [hgc, hto, htb, Bool.and_self, eq_self_iff_true, if_true]
  · rw [hgc] at hc
    simp only [JsValue.optTruthy] at hc
    simp only [hgc, hto, htb, Bool.and_self, eq_self_iff_true, if_true, hc,
      Bool.false_eq_true, if_false]

theorem formatResult_ok_is_string (result v : JsValue)
    (htext : ∀ u, result.getField "text" = some u → u.truthy = true →
      ∃ w, u = .str w)
    (h : MCPToolWrapper.formatResult result = .ok v) :
    ∃ out, v = .str out := by
  unfold MCPToolWrapper.formatResult at h
  by_cases hobj : (result.truthy && result.typeofObject) = true
  · rw [if_pos hobj] at h
    rcases hgc : result.getField "content" with _ | c
    · rw [hgc] at h
      obtain ⟨out, ho⟩ := formatRest_is_string result htext
      have h2 := Except.ok.inj h
      exact ⟨out, by rw [← h2, ho]⟩
    · rw [hgc] at h
      have h' : (if c.truthy = true then
            (match c with
              | JsValue.arr items =>
                (items.mapM MCPToolWrapper.formatContentItem).map
                  (fun texts => JsValue.str (jsJoin "\n" texts))
              | c => Except.ok (JsValue.str (jsString c)))
          else Except.ok (MCPToolWrapper.formatRest result)) = Except.ok v := h
      by_cases hct : c.truthy = true
      · rw [if_pos hct] at h'
        rcases c with _ | b | n | cs | es | fs
        · rw [show JsValue.null.truthy = false from rfl] at hct
          exact absurd hct (by simp)
        · exact ⟨_, (Except.ok.inj h').symm⟩
        · exact ⟨_, (Except.ok.inj h').symm⟩
        · exact ⟨_, (Except.ok.inj h').symm⟩
        · have h2 : (es.mapM MCPToolWrapper.formatContentItem).map
              (fun texts => JsValue.str (jsJoin "\n" texts)) = Except.ok v := h'
          rcases hm : es.mapM MCPToolWrapper.formatContentItem with e2 | texts
          · rw [hm] at h2
            exact absurd h2 (by simp [Except.map])
          · rw [hm] at h2
            simp only [Except.map] at h2
            exact ⟨_, (Except.ok.inj h2).symm⟩
        · exact ⟨_, (Except.ok.inj h').symm⟩
      · simp only [Bool.not_eq_true] at hct
        rw [if_neg (by simp [hct])] at h'
        obtain ⟨out, ho⟩ := formatRest_is_string result htext
        have h2 := Except.ok.inj h'
        exact ⟨out, by rw [← h2, ho]⟩
  · rw [if_neg hobj] at h
    exact ⟨_, (Except.ok.inj h).symm⟩

/-- C7 counterexample: a result whose truthy `text` field is the number `5`
is returned unchanged by `return result.text`, so `invoke` returns a
number, not a string — refuting "invoke(args) always returns a string" as
stated. -/
theorem invoke_text_number_not_string :
    (MCPToolWrapper.invoke "t" (.ok (.obj [("text", .num 5)])) = .num 5) ∧
    ((MCPToolWrapper.invoke "t" (.ok (.obj [("text", .num 5)]))).isStr = false) :=
  ⟨rfl, rfl⟩

/-- C7 amended: `invoke` never propagates an exception — an error thrown by
the underlying call, or while formatting (the TypeError from a `null` item
inside a `content` array), is caught and returned as a readable error
string.  On success: a `content` array whose per-item mapping succeeds
yields the items' texts (an object item without a truthy `text` field is
stringified, a non-object item string-coerced, a `null` item throws) joined
with newlines; otherwise a truthy `text` field is returned as that value
unchanged — a string exactly when the server sent a string, so `invoke`
returns a string for every protocol-conforming result but not for
arbitrary ones; otherwise a truthy `data` field is returned stringified;
any other object shape is stringified as a fallback. -/
theorem invoke_normalizes_or_errors (toolName msg : String)
    (fields : List (String × JsValue)) (items : List JsValue)
    (texts : List String) (s e : String) (v t : JsValue) :
    (MCPToolWrapper.invoke toolName (.error msg) =
      .str ("Error calling MCP tool " ++ toolName ++ ": " ++ msg)) ∧
    ((JsValue.obj fields).getField "content" = some (.arr items) →
      items.mapM MCPToolWrapper.formatContentItem = .ok texts →
      MCPToolWrapper.invoke toolName (.ok (.obj fields)) =
        .str (jsJoin "\n" texts)) ∧
    ((JsValue.obj fields).getField "content" = some (.arr items) →
      items.mapM MCPToolWrapper.formatContentItem = .error e →
      MCPToolWrapper.invoke toolName (.ok (.obj fields)) =
        .str ("Error calling MCP tool " ++ toolName ++ ": " ++ e)) ∧
    ((JsValue.obj fields).getField "text" = some (.str s) → s ≠ "" →
      MCPToolWrapper.formatContentItem (.obj fields) = .ok s) ∧
    ((JsValue.obj fields).getField "text" = none →
      MCPToolWrapper.formatContentItem (.obj fields) =
        .ok (jsonStringify (.obj fields))) ∧
    (MCPToolWrapper.formatContentItem .null =
      .error "Cannot read properties of null (reading 'text')") ∧
    (JsValue.optTruthy ((JsValue.obj fields).getField "content") = false →
      (JsValue.obj fields).getField "text" = some t → t.truthy = true →
      MCPToolWrapper.invoke toolName (.ok (.obj fields)) = t) ∧
    (JsValue.optTruthy ((JsValue.obj fields).getField "content") = false →
      JsValue.optTruthy ((JsValue.obj fields).getField "text") = false →
      (JsValue.obj fields).getField "data" = some v → v.truthy = true →
      MCPToolWrapper.invoke toolName (.ok (.obj fields)) =
        .str (jsonStringify v)) ∧
    (JsValue.optTruthy ((JsValue.obj fields).getField "content") = false →
      JsValue.optTruthy ((JsValue.obj fields).getField "text") = false →
      JsValue.optTruthy ((JsValue.obj fields).getField "data") = false →
      MCPToolWrapper.invoke toolName (.ok (.obj fields)) =
        .str (jsonStringify (.obj fields))) ∧
    (∀ result : JsValue,
      (∀ u, result.getField "text" = some u → u.truthy = true →
        ∃ w, u = .str w) →
      ∃ out, MCPToolWrapper.invoke toolName (.ok result) = .str out) := by
  have hto : (JsValue.obj fields).truthy = true := rfl
  have htb : (JsValue.obj fields).typeofObject = true := rfl
  refine ⟨rfl, ?_, ?_, ?_, ?_, rfl, ?_, ?_, ?_, ?_⟩
  · intro hgc hm
    have hfr : MCPToolWrapper.formatResult (.obj fields) =
        .ok (.str (jsJoin "\n" texts)) := by
      unfold MCPToolWrapper.formatResult
      simp only [hgc, hto, htb, Bool.and_self, eq_self_iff_true, if_true,
        JsValue.truthy, hm, Except.map]
    simp [MCPToolWrapper.invoke, hfr]
  · intro hgc hm
    have hfr : MCPToolWrapper.formatResult (.obj fields) = .error e := by
      unfold MCPToolWrapper.formatResult
      simp only [hgc, hto, htb, Bool.and_self, eq_self_iff_true, if_true,
        JsValue.truthy, hm, Except.map]
    simp [MCPToolWrapper.invoke, hfr]
  · intro ht hs
    simp [MCPToolWrapper.formatContentItem, ht, JsValue.truthy,
      JsValue.typeofObject, hs, jsString]
  · intro ht
    simp [MCPToolWrapper.formatContentItem, ht, JsValue.typeofObject]
  · intro hc ht htt
    have hfr := formatResult_skip_content fields hc
    have hrt := formatRest_of_text (.obj fields) t ht htt
    simp [MCPToolWrapper.invoke, hfr, hrt]
  · intro hc htf hd hv
    have hfr := formatResult_skip_content fields hc
    simp [MCPToolWrapper.invoke, hfr, formatRest_skip (.obj fields) htf,
      formatData_of_data (.obj fields) v hd hv]
  · intro hc htf hdf
    have hfr := formatResult_skip_content fields hc
    simp [MCPToolWrapper.invoke, hfr, formatRest_skip (.obj fields) htf,
      formatData_fallback (.obj fields) hdf]
  · intro result htext
    rcases hfr : MCPToolWrapper.formatResult result with err | v2
    · exact ⟨"Error calling MCP tool " ++ toolName ++ ": " ++ err,
        by simp [MCPToolWrapper.invoke, hfr]⟩
    · obtain ⟨out, ho⟩ := formatResult_ok_is_string result v2 htext hfr
      exact ⟨out, by simp [MCPToolWrapper.invoke, hfr, ho]⟩

/-- C7 amended, witness: a thrown error comes back as the error string, a
well-formed content array is flattened and newline-joined, a `null` content
item's TypeError is caught into the error string, and a text-only result
yields a string. -/
theorem invoke_normalizes_or_errors_witness :
    (MCPToolWrapper.invoke "t" (.error "boom") =
      .str ("Error calling MCP tool " ++ "t" ++ ": " ++ "boom")) ∧
    (MCPToolWrapper.invoke "t"
        (.ok (.obj [("content", .arr [.obj [("text", .str "hello")], .str "raw"])])) =
      .str (jsJoin "\n" ["hello", "raw"])) ∧
    (MCPToolWrapper.invoke "t" (.ok (.obj [("content", .arr [.null])])) =
      .str ("Error calling MCP tool " ++ "t" ++ ": " ++
        "Cannot read properties of null (reading 'text')")) ∧
    (∃ out, MCPToolWrapper.invoke "t" (.ok (.obj [("text", .str "hi")])) =
      .str out) := by
  have T := invoke_normalizes_or_errors "t" "boom"
    [("content", .arr [.obj [("text", .str "hello")], .str "raw"])]
    [JsValue.obj [("text", .str "hello")], .str "raw"] ["hello", "raw"] "hi"
    "Cannot read properties of null (reading 'text')" .null .null
  have Tnull := invoke_normalizes_or_errors "t" "boom"
    [("content", .arr [.null])] [JsValue.null] [] "hi"
    "Cannot read properties of null (reading 'text')" .null .null
  have T2 := invoke_normalizes_or_errors "t" "boom" [("text", .str "hi")]
    [] [] "hi" "x" .null .null
  refine ⟨T.1, T.2.1 rfl rfl, Tnull.2.2.1 rfl rfl, ?_⟩
  refine T2.2.2.2.2.2.2.2.2.2 (.obj [("text", .str "hi")]) ?_
  intro u h htt
  have h2 : u = JsValue.str "hi" := Option.some.inj (h.symm.trans rfl)
  exact ⟨"hi", h2⟩

end MCP
